import Mathlib

/-!
Verification of the TM_Screening_Pipeline repository: shallow embeddings of the
pure data-manipulation kernels of `mp.py`, `nemad.py`, `icsd_from_mpids.py`,
`COD_downloader.py` and `ICSD_get_cifs_by_ids.py`, with theorems settling the
specification claims about batching, retry, filtering, schema normalization,
space-group handling, merging, and identifier-file output.
-/

namespace TMScreening

/-! ### Batch chunking (`mp.py`, `chunk_list`)

`chunk_list(lst, max_chars=55)` walks the list keeping a current chunk and its
serialized length (items joined by a one-character separator); when adding the
next item would push the serialized length over `max_chars` it flushes the
current chunk and starts a new one with that item. -/

/-- Serialized length of a batch: item lengths plus one separator between
consecutive items (natural subtraction makes the empty batch 0). -/
def ser_len (c : List String) : Nat :=
  (c.map String.length).sum + c.length - 1

/-- Loop body of `chunk_list` from `mp.py`: state is the emitted chunks, the
current chunk, and the tracked serialized length of the current chunk. -/
def chunk_list_go (maxChars : Nat) :
    List String → List (List String) → List String → Nat → List (List String)
  | [], chunks, cur, _ =>
      if cur.isEmpty then chunks else chunks ++ [cur]
  | item :: rest, chunks, cur, curLen =>
      let addLen := item.length + (if cur.isEmpty then 0 else 1)
      if curLen + addLen > maxChars then
        chunk_list_go maxChars rest (chunks ++ [cur]) [item] item.length
      else
        chunk_list_go maxChars rest chunks (cur ++ [item]) (curLen + addLen)

/-- `chunk_list` from `mp.py` (the Python default for `max_chars` is 55). -/
def chunk_list (lst : List String) (maxChars : Nat) : List (List String) :=
  chunk_list_go maxChars lst [] [] 0

theorem chunk_list_go_flatten (m : Nat) (l : List String) :
    ∀ chunks cur curLen,
      (chunk_list_go m l chunks cur curLen).flatten = chunks.flatten ++ cur ++ l := by
  induction l with
  | nil =>
      intro chunks cur curLen
      by_cases h : cur.isEmpty
      · simp [chunk_list_go, h, List.isEmpty_iff.mp h]
      · simp [chunk_list_go, h]
  | cons item rest ih =>
      intro chunks cur curLen
      simp only [chunk_list_go]
      split
      · split <;> simp [ih]
      · split <;> simp [ih]

theorem ser_len_nil : ser_len [] = 0 := rfl

theorem ser_len_singleton (x : String) : ser_len [x] = x.length := by
  simp [ser_len]

theorem ser_len_append_singleton (cur : List String) (x : String) :
    ser_len (cur ++ [x]) =
      ser_len cur + (x.length + (if cur.isEmpty then 0 else 1)) := by
  cases cur with
  | nil => simp [ser_len]
  | cons a as => simp [ser_len] ; omega

/-- Invariant satisfied by every batch `chunk_list` emits: it fits in the
capacity, or it is a lone over-long item in a batch by itself. -/
def chunk_ok (m : Nat) (c : List String) : Prop :=
  ser_len c ≤ m ∨ (c.length = 1 ∧ m < ser_len c)

theorem chunk_ok_of_singleton (m : Nat) (x : String) : chunk_ok m [x] := by
  by_cases h : ser_len [x] ≤ m
  · exact Or.inl h
  · exact Or.inr ⟨rfl, by omega⟩

theorem chunk_list_go_cap (m : Nat) (l : List String) :
    ∀ chunks cur curLen, (∀ c ∈ chunks, chunk_ok m c) → chunk_ok m cur →
      curLen = ser_len cur →
      ∀ c ∈ chunk_list_go m l chunks cur curLen, chunk_ok m c := by
  induction l with
  | nil =>
      intro chunks cur curLen hchunks hcur _ c hc
      simp only [chunk_list_go] at hc
      split at hc
      · exact hchunks c hc
      · rcases List.mem_append.mp hc with h | h
        · exact hchunks c h
        · simpa [List.mem_singleton.mp h] using hcur
  | cons item rest ih =>
      intro chunks cur curLen hchunks hcur hlen c hc
      simp only [chunk_list_go] at hc
      split at hc <;> split at hc
      · refine ih (chunks ++ [cur]) [item] item.length ?_
          (chunk_ok_of_singleton m item) (by simp [ser_len_singleton]) c hc
        intro d hd
        rcases List.mem_append.mp hd with h | h
        · exact hchunks d h
        · simpa [List.mem_singleton.mp h] using hcur
      · rename_i hemp hle
        refine ih chunks (cur ++ [item]) _ hchunks ?_ ?_ c hc
        · left
          rw [ser_len_append_singleton, if_pos hemp]
          omega
        · rw [ser_len_append_singleton, if_pos hemp]
          omega
      · refine ih (chunks ++ [cur]) [item] item.length ?_
          (chunk_ok_of_singleton m item) (by simp [ser_len_singleton]) c hc
        intro d hd
        rcases List.mem_append.mp hd with h | h
        · exact hchunks d h
        · simpa [List.mem_singleton.mp h] using hcur
      · rename_i hemp hle
        refine ih chunks (cur ++ [item]) _ hchunks ?_ ?_ c hc
        · left
          rw [ser_len_append_singleton, if_neg hemp]
          omega
        · rw [ser_len_append_singleton, if_neg hemp]
          omega

/-- Claim C4: the batches produced by `chunk_list`, concatenated in output order,
equal the input list (every target in exactly one batch, never split, order
preserved), and the total item count over all batches equals the input
length. -/
theorem chunk_list_flatten_eq (lst : List String) (m : Nat) :
    (chunk_list lst m).flatten = lst ∧
      ((chunk_list lst m).map List.length).sum = lst.length := by
  have h1 : (chunk_list lst m).flatten = lst := by
    simpa [chunk_list] using chunk_list_go_flatten m lst [] [] 0
  refine ⟨h1, ?_⟩
  rw [← List.length_flatten, h1]

/-- Claim C3, amended: every batch produced by `chunk_list` has serialized
length (items joined by a one-character separator) at most the declared limit,
except that a target longer than the limit by itself is emitted as a singleton
batch which exceeds the limit. -/
theorem chunk_list_capacity (lst : List String) (m : Nat) (c : List String)
    (hc : c ∈ chunk_list lst m) :
    ser_len c ≤ m ∨ (c.length = 1 ∧ m < ser_len c) := by
  refine chunk_list_go_cap m lst [] [] 0 ?_ ?_ ?_ c hc
  · intro d hd
    simp at hd
  · exact Or.inl (by simp [ser_len_nil])
  · rfl

theorem chunk_list_capacity_witness :
    (["ab", "cd"] : List String) ∈ chunk_list ["ab", "cd"] 5 ∧
      (ser_len ["ab", "cd"] ≤ 5 ∨ ((["ab", "cd"] : List String).length = 1 ∧ 5 < ser_len ["ab", "cd"])) :=
  ⟨by decide, chunk_list_capacity ["ab", "cd"] 5 ["ab", "cd"] (by decide)⟩

/-- Claim C3 counterexample: a single 60-character target with limit 55 yields a
batch whose serialized length is 60 > 55 (the claim says no batch ever exceeds
the limit, including the case of an over-long single target). -/
theorem chunk_list_capacity_cex :
    chunk_list ["aaaaaaaaaaaaaaaaaaaaaaaaaaaaaaaaaaaaaaaaaaaaaaaaaaaaaaaaaaaa"] 55 =
      [[], ["aaaaaaaaaaaaaaaaaaaaaaaaaaaaaaaaaaaaaaaaaaaaaaaaaaaaaaaaaaaa"]] ∧
      55 < ser_len ["aaaaaaaaaaaaaaaaaaaaaaaaaaaaaaaaaaaaaaaaaaaaaaaaaaaaaaaaaaaa"] := by
  decide

/-! ### Retry wrappers (`mp.py` `safe_api_call`, `nemad.py` `request_json`)

Both wrappers are modelled with an explicit outcome per attempt and an explicit
trace of the `time.sleep` durations performed.  The result type
`Except String (Option α)` distinguishes an exception propagating to the caller
(`Except.error`) from a normal return (`Except.ok`), with `Option α` capturing
Python's `None`. -/

/-- Loop of `safe_api_call(func, *args, retries=3, delay=5)` from `mp.py`:
`f n` is the outcome of the attempt with 0-based index `n`; every exception is
caught, logged, and followed by `time.sleep(delay)`; after the loop the wrapper
returns `None`.  Returns the result together with the sleep trace. -/
def safe_api_call_go (f : Nat → Except String α) (delay : ℚ) :
    Nat → Nat → Except String (Option α) × List ℚ
  | 0, _ => (Except.ok none, [])
  | fuel + 1, attempt =>
      match f attempt with
      | Except.ok v => (Except.ok (some v), [])
      | Except.error _ =>
          let r := safe_api_call_go f delay fuel (attempt + 1)
          (r.1, delay :: r.2)

/-- `safe_api_call` from `mp.py`: up to `retries` attempts starting at index
0; the Python defaults are `retries=3`, `delay=5`. -/
def safe_api_call (f : Nat → Except String α) (retries : Nat) (delay : ℚ) :
    Except String (Option α) × List ℚ :=
  safe_api_call_go f delay retries 0

/-- An HTTP response as seen by `request_json` in `nemad.py`: a status code and
the parsed JSON body (`none` models a body `resp.json()` fails to parse). -/
structure Resp (α : Type) where
  status : Nat
  body : Option α

/-- Loop of `request_json(url, headers, params, retries=3, backoff=0.8)` from
`nemad.py`: attempts are numbered `1..retries`; a 200 response returns its
parsed body (or `None` on a parse failure); otherwise, if the attempt is not
the last, the wrapper sleeps `backoff * attempt` and retries; after the final
failure it warns and returns `None`. -/
def request_json_go (resp : Nat → Resp α) (backoff : ℚ) (retries : Nat) :
    Nat → Nat → Except String (Option α) × List ℚ
  | 0, _ => (Except.ok none, [])
  | fuel + 1, attempt =>
      let r := resp attempt
      if r.status = 200 then (Except.ok r.body, [])
      else if attempt < retries then
        let q := request_json_go resp backoff retries fuel (attempt + 1)
        (q.1, (backoff * (attempt : ℚ)) :: q.2)
      else (Except.ok none, [])

/-- `request_json` from `nemad.py` (Python defaults `retries=3`,
`backoff=0.8`). -/
def request_json (resp : Nat → Resp α) (retries : Nat) (backoff : ℚ) :
    Except String (Option α) × List ℚ :=
  request_json_go resp backoff retries retries 1

theorem safe_api_call_go_allfail (f : Nat → Except String α) (delay : ℚ)
    (hf : ∀ n, ∃ e, f n = Except.error e) :
    ∀ fuel attempt,
      safe_api_call_go f delay fuel attempt = (Except.ok none, List.replicate fuel delay) := by
  intro fuel
  induction fuel with
  | zero => intro attempt ; rfl
  | succ n ih =>
      intro attempt
      obtain ⟨e, he⟩ := hf attempt
      simp [safe_api_call_go, he, ih, List.replicate_succ]

theorem request_json_go_allfail (resp : Nat → Resp α) (backoff : ℚ) (retries : Nat)
    (hr : ∀ n, (resp n).status ≠ 200) :
    ∀ fuel attempt, fuel + attempt = retries + 1 →
      request_json_go resp backoff retries fuel attempt =
        (Except.ok none, (List.range' attempt (retries - attempt)).map fun n => backoff * (n : ℚ)) := by
  intro fuel
  induction fuel with
  | zero =>
      intro attempt hsum
      have : retries - attempt = 0 := by omega
      simp [request_json_go, this]
  | succ n ih =>
      intro attempt hsum
      by_cases hlt : attempt < retries
      · have hrange : retries - attempt = (retries - (attempt + 1)) + 1 := by omega
        simp [request_json_go, hr attempt, hlt, ih (attempt + 1) (by omega), hrange,
          List.range'_succ]
      · have hat : attempt = retries := by omega
        have : retries - attempt = 0 := by omega
        simp [request_json_go, hr attempt, hlt, this]

/-- A wrapped call whose every attempt raises (used as a concrete input). -/
def failAttempts : Nat → Except String Nat := fun _ => Except.error "down"

/-- A remote endpoint whose every response has status 503 (concrete input). -/
def failResp : Nat → Resp Nat := fun _ => ⟨503, none⟩

/-- Claim C2 counterexample: with every attempt of the wrapped call raising,
`safe_api_call` (retries=3, delay=5) terminates with the normal return value
`None` — not with the last error propagating, as the claim requires. -/
theorem safe_api_call_swallows_cex :
    (safe_api_call failAttempts 3 5).1 = Except.ok none ∧
      (Except.ok none : Except String (Option Nat)) ≠ Except.error "down" := by
  refine ⟨rfl, ?_⟩
  intro h
  exact Except.noConfusion h

/-- Claim C2, amended: when every attempt fails, neither wrapper re-raises the
last error to the caller; `safe_api_call` catches each exception and returns
`None` after the final attempt, and `request_json` returns `None` after the
final non-200 response. -/
theorem retry_allfail_returns_none (f : Nat → Except String α) (retries : Nat)
    (delay : ℚ) (resp : Nat → Resp β) (retriesN : Nat) (backoff : ℚ)
    (hf : ∀ n, ∃ e, f n = Except.error e) (hr : ∀ n, (resp n).status ≠ 200) :
    (safe_api_call f retries delay).1 = Except.ok none ∧
      (request_json resp retriesN backoff).1 = Except.ok none := by
  constructor
  · rw [safe_api_call, safe_api_call_go_allfail f delay hf]
  · rw [request_json, request_json_go_allfail resp backoff retriesN hr retriesN 1 (by omega)]

theorem retry_allfail_returns_none_witness :
    (safe_api_call failAttempts 3 5).1 = Except.ok none ∧
      (request_json failResp 3 (4/5)).1 = Except.ok none :=
  retry_allfail_returns_none failAttempts 3 5 failResp 3 (4/5)
    (fun _ => ⟨"down", rfl⟩) (fun n => by simp [failResp])

/-- Claim C5, amended: under total failure `request_json` implements linear
backoff — it sleeps `backoff × n` after the n-th failed attempt for every
n < retries and does not sleep after the final attempt — whereas
`safe_api_call` sleeps the constant `delay` after every failed attempt,
including after the final one. -/
theorem retry_sleep_traces (resp : Nat → Resp α) (retries : Nat) (backoff : ℚ)
    (f : Nat → Except String β) (retriesN : Nat) (delay : ℚ)
    (hr : ∀ n, (resp n).status ≠ 200) (hf : ∀ n, ∃ e, f n = Except.error e) :
    (request_json resp retries backoff).2 =
        (List.range' 1 (retries - 1)).map (fun n => backoff * (n : ℚ)) ∧
      (safe_api_call f retriesN delay).2 = List.replicate retriesN delay := by
  constructor
  · rw [request_json, request_json_go_allfail resp backoff retries hr retries 1 (by omega)]
  · rw [safe_api_call, safe_api_call_go_allfail f delay hf]

theorem retry_sleep_traces_witness :
    (request_json failResp 3 (4/5)).2 = [4/5, 8/5] ∧
      (safe_api_call failAttempts 3 5).2 = [5, 5, 5] := by
  have h := retry_sleep_traces failResp 3 (4/5) failAttempts 3 5
    (fun n => by simp [failResp]) (fun _ => ⟨"down", rfl⟩)
  refine ⟨?_, ?_⟩
  · rw [h.1] ; norm_num [List.range']
  · rw [h.2] ; rfl

/-- Claim C5 counterexample: `safe_api_call` with `retries=3`, `delay=5` and
every attempt failing sleeps `[5, 5, 5]` — a constant wait after each of the
three failed attempts, including after the final one — where the claim requires
the linear waits `[5×1, 5×2]` and no wait after the third failure. -/
theorem retry_sleep_traces_cex :
    (safe_api_call failAttempts 3 5).2 = [5, 5, 5] ∧
      ([5, 5, 5] : List ℚ) ≠ [5 * 1, 5 * 2] := by
  refine ⟨rfl, ?_⟩
  intro h
  have hlen := congrArg List.length h
  simp at hlen

/-! ### Matcher/Merger (`nemad.py`, `main`, step 4)

`nemad.py` merges the NEMAD results onto the MP rows with
`mp.merge(df_nemad, on="_formula_canon", how="left")`.  Rows are modelled with
their canonical-formula key column and their space-group-bearing column
(`spacegroup` on the MP side, `Crystal_Structure` on the NEMAD side). -/

/-- An MP (primary) row as relevant to the merge: its `_formula_canon` key and
its `spacegroup` column. -/
structure MpRow where
  formula_canon : String
  spacegroup : String
  deriving DecidableEq

/-- A NEMAD (secondary) row as relevant to the merge: its `_formula_canon` key
and its `Crystal_Structure` column. -/
structure NemadRow where
  formula_canon : String
  crystal_structure : String
  deriving DecidableEq

/-- The pandas left merge `mp.merge(df_nemad, on="_formula_canon", how="left")`
from `nemad.py`: each MP row is paired with every NEMAD row sharing its
canonical formula, or with `none` when no NEMAD row matches. -/
def merge_left (mp : List MpRow) (nemad : List NemadRow) :
    List (MpRow × Option NemadRow) :=
  mp.flatMap fun r =>
    let ms := nemad.filter fun n => n.formula_canon == r.formula_canon
    if ms.isEmpty then [(r, none)] else ms.map fun n => (r, some n)

/-- Claim C1 counterexample: the primary source provides only space-group
"R-3C" for formula "Fe2O3", yet a secondary record with the same canonical
formula and the different space-group "FM-3M" is joined to that primary row by
the merge — it is not rejected. -/
theorem merge_left_spacegroup_cex :
    merge_left [⟨"Fe2O3", "R-3C"⟩] [⟨"Fe2O3", "FM-3M"⟩] =
      [(⟨"Fe2O3", "R-3C"⟩, some ⟨"Fe2O3", "FM-3M"⟩)] ∧
      ("FM-3M" : String) ≠ "R-3C" := by
  refine ⟨rfl, by decide⟩

/-- Claim C1, amended: the Matcher/Merger joins secondary records to primary
rows on canonical formula alone — a secondary record whose canonical formula
equals a primary row's is joined to that row in the merged output regardless of
its space-group symbol; no space-group (AllowedKeySet) filtering exists. -/
theorem merge_left_joins_on_formula (mp : List MpRow) (nemad : List NemadRow)
    (r : MpRow) (n : NemadRow) (hr : r ∈ mp) (hn : n ∈ nemad)
    (hf : n.formula_canon = r.formula_canon) :
    (r, some n) ∈ merge_left mp nemad := by
  unfold merge_left
  refine List.mem_flatMap.mpr ⟨r, hr, ?_⟩
  have hmem : n ∈ nemad.filter fun x => x.formula_canon == r.formula_canon :=
    List.mem_filter.mpr ⟨hn, beq_iff_eq.mpr hf⟩
  have hne : (nemad.filter fun x => x.formula_canon == r.formula_canon).isEmpty = false := by
    cases hcase : nemad.filter fun x => x.formula_canon == r.formula_canon with
    | nil => rw [hcase] at hmem ; cases hmem
    | cons a as => rfl
  simp only [hne, Bool.false_eq_true, if_false]
  exact List.mem_map.mpr ⟨n, hmem, rfl⟩

theorem merge_left_joins_on_formula_witness :
    ((⟨"Fe2O3", "R-3C"⟩ : MpRow), some (⟨"Fe2O3", "FM-3M"⟩ : NemadRow)) ∈
      merge_left [⟨"Fe2O3", "R-3C"⟩] [⟨"Fe2O3", "FM-3M"⟩] :=
  merge_left_joins_on_formula [⟨"Fe2O3", "R-3C"⟩] [⟨"Fe2O3", "FM-3M"⟩]
    ⟨"Fe2O3", "R-3C"⟩ ⟨"Fe2O3", "FM-3M"⟩ (by decide) (by decide) rfl

/-! ### Space-group display symbol handling (`ICSD_get_cifs_by_ids.py`, line 110)

The only space-group symbol transformation in the repository is
`sgrd = str(row[21]).replace(' Z', '').replace(' S', '').replace(' H', '')`:
it deletes the ICSD origin/setting suffixes " Z", " S" and " H" from the
`sgr_disp` column and nothing else.  `remove_occ` models Python's
`str.replace(pat, '')`: left-to-right, non-overlapping deletion of every
occurrence, scanning the original string only. -/

/-- Fueled worker for `remove_occ`; with `fuel ≥ s.length` it deletes every
(left-to-right, non-overlapping) occurrence of `pat` from `s`. -/
def remove_occ_go (pat : List Char) : Nat → List Char → List Char
  | 0, s => s
  | _, [] => []
  | fuel + 1, c :: cs =>
      if pat ≠ [] ∧ pat.isPrefixOf (c :: cs) = true then
        remove_occ_go pat fuel ((c :: cs).drop pat.length)
      else
        c :: remove_occ_go pat fuel cs

/-- Python's `s.replace(pat, '')` on character lists. -/
def remove_occ (pat s : List Char) : List Char :=
  remove_occ_go pat s.length s

/-- `sgrd` from `ICSD_get_cifs_by_ids.py` line 110:
`str(row[21]).replace(' Z', '').replace(' S', '').replace(' H', '')`. -/
def sgrd (s : String) : String :=
  String.mk (remove_occ " H".toList (remove_occ " S".toList (remove_occ " Z".toList s.toList)))

/-- `pat` occurs as a contiguous substring of `s`. -/
def has_occ (pat s : List Char) : Bool :=
  (List.range (s.length + 1)).any fun i => pat.isPrefixOf (s.drop i)

theorem has_occ_cons (pat : List Char) (c : Char) (cs : List Char)
    (h : has_occ pat (c :: cs) = false) :
    pat.isPrefixOf (c :: cs) = false ∧ has_occ pat cs = false := by
  rw [has_occ, List.any_eq_false] at h
  constructor
  · have h0 := h 0 (by simp)
    simp only [List.drop_zero] at h0
    exact Bool.eq_false_iff.mpr h0
  · rw [has_occ, List.any_eq_false]
    intro i hi
    have h1 := h (i + 1) (by simp at hi ⊢ ; omega)
    simpa only [List.drop_succ_cons] using h1

theorem remove_occ_go_of_no_occ (pat : List Char) :
    ∀ fuel s, has_occ pat s = false → remove_occ_go pat fuel s = s := by
  intro fuel
  induction fuel with
  | zero => intro s _ ; cases s <;> rfl
  | succ n ih =>
      intro s hs
      cases s with
      | nil => rfl
      | cons c cs =>
          obtain ⟨h0, h1⟩ := has_occ_cons pat c cs hs
          rw [remove_occ_go, if_neg, ih cs h1]
          intro hcontra
          rw [hcontra.2] at h0
          cases h0

theorem remove_occ_of_no_occ (pat s : List Char) (h : has_occ pat s = false) :
    remove_occ pat s = s :=
  remove_occ_go_of_no_occ pat s.length s h

/-- Claim C7, amended: the space-group transformation `sgrd` only deletes
occurrences of the substrings " Z", " S" and " H"; on a symbol containing none
of them it is the identity — in particular it does not uppercase, does not
normalize hyphen glyphs, and does not strip whitespace — and it is idempotent
on such symbols. -/
theorem sgrd_id_of_no_suffix (s : String)
    (hz : has_occ " Z".toList s.toList = false)
    (hs : has_occ " S".toList s.toList = false)
    (hh : has_occ " H".toList s.toList = false) :
    sgrd s = s ∧ sgrd (sgrd s) = sgrd s := by
  have hid : sgrd s = s := by
    rw [sgrd, remove_occ_of_no_occ _ _ hz, remove_occ_of_no_occ _ _ hs,
      remove_occ_of_no_occ _ _ hh]
    cases s
    rfl
  exact ⟨hid, by rw [hid, hid]⟩

theorem sgrd_id_of_no_suffix_witness :
    sgrd "Fm-3m" = "Fm-3m" ∧ sgrd (sgrd "Fm-3m") = sgrd "Fm-3m" :=
  sgrd_id_of_no_suffix "Fm-3m" (by decide) (by decide) (by decide)

/-- Claim C7 counterexample: the claim requires canonicalization to send
"Fm-3m" to the uppercase form "FM-3M"; the code's `sgrd` leaves "Fm-3m"
unchanged (it deletes only " Z"/" S"/" H" suffixes), and "Fm-3m" ≠ "FM-3M". -/
theorem sgrd_not_uppercasing_cex :
    sgrd "Fm-3m" = "Fm-3m" ∧ ("Fm-3m" : String) ≠ "FM-3M" := by
  refine ⟨?_, by decide⟩
  decide

/-! ### COD element filter (`COD_downloader.py`, `first_scan`)

`first_scan` keeps a CIF record only if at least one element of the
`necessary` allow-list occurs in the parsed element list, and then — checked
strictly afterwards — no element of the `banlist` occurs in it. -/

/-- The `necessary` allow-list from `first_scan`, verbatim (including the
stray leading space in `" Y"`). -/
def necessary : List String :=
  ["Mn", "Fe", "Si", "Ni", " Y", "Zr", "Al", "Cu"]

/-- The `banlist` from `first_scan`, verbatim (expensive/limited, health
hazard, radioactive, and noble-gas groups, with `"O"` in the last group). -/
def banlist : List String :=
  ["Re", "Os", "Ir", "Pt", "Au", "In", "Tc",
   "Be", "As", "Cd", "Ba", "Hg", "Tl", "Pb", "Ac",
   "Cs", "Po", "Np", "U", "Pu", "Th",
   "He", "Ne", "Ar", "O", "Kr", "Xe"]

/-- `necessary_match = [i for i in necessary if i in elemets]`. -/
def necessary_match (elemets : List String) : List String :=
  necessary.filter fun i => elemets.contains i

/-- `banlist_match = [i for i in banlist if i in elemets]` (evaluated by the
code only after `necessary_match` is found non-empty). -/
def banlist_match (elemets : List String) : List String :=
  banlist.filter fun i => elemets.contains i

/-- The record-retention decision of `first_scan`: a row is written iff
`necessary_match` is non-empty and then `banlist_match` is empty. -/
def first_scan_keeps (elemets : List String) : Bool :=
  !(necessary_match elemets).isEmpty && (banlist_match elemets).isEmpty

/-- Claim C6: a record whose element list contains an allow-listed element is
still excluded whenever it also contains a ban-listed element (the ban check,
made after the allow check succeeds, dominates), and is included when it
contains no ban-listed element. -/
theorem first_scan_ban_dominates (elemets : List String) (a b : String)
    (ha : a ∈ necessary) (hae : a ∈ elemets) :
    (b ∈ banlist → b ∈ elemets → first_scan_keeps elemets = false) ∧
      (banlist_match elemets = [] → first_scan_keeps elemets = true) := by
  have hmemn : a ∈ necessary_match elemets :=
    List.mem_filter.mpr ⟨ha, List.elem_eq_true_of_mem hae⟩
  have hnm : (necessary_match elemets).isEmpty = false := by
    cases hcase : necessary_match elemets with
    | nil => rw [hcase] at hmemn ; cases hmemn
    | cons x xs => rfl
  constructor
  · intro hb hbe
    have hmemb : b ∈ banlist_match elemets :=
      List.mem_filter.mpr ⟨hb, List.elem_eq_true_of_mem hbe⟩
    have hbm : (banlist_match elemets).isEmpty = false := by
      cases hcase : banlist_match elemets with
      | nil => rw [hcase] at hmemb ; cases hmemb
      | cons x xs => rfl
    simp [first_scan_keeps, hnm, hbm]
  · intro hbm
    simp [first_scan_keeps, hnm, hbm]

theorem first_scan_ban_dominates_witness :
    first_scan_keeps ["Fe", "Pb"] = false ∧ first_scan_keeps ["Fe", "Cu"] = true :=
  ⟨(first_scan_ban_dominates ["Fe", "Pb"] "Fe" "Pb" (by decide) (by decide)).1
      (by decide) (by decide),
   (first_scan_ban_dominates ["Fe", "Cu"] "Fe" "Pb" (by decide) (by decide)).2
      (by decide)⟩

/-! ### Schema normalization (`mp.py` `_extract_dbids`,
`icsd_from_mpids.py` `extract_icsd_from_dbids`)

`_extract_dbids` tolerates both the `database_IDs` and the legacy
`database_Ids` casing of the provenance field, returning `{}` when neither is
present as a dict; `extract_icsd_from_dbids` pulls the `icsd` entry out of
such a mapping and returns `[]` on absent or non-mapping input. -/

/-- A Python attribute value as relevant here: a mapping from provenance
database names to id-string lists, or any other (non-dict) value. -/
inductive PyVal where
  | dict (m : List (String × List String))
  | other
  deriving DecidableEq

/-- A Summary document as seen by `_extract_dbids`: its `database_IDs` and
`database_Ids` attributes, with `none` modelling a missing attribute (where
`getattr(doc, name, None)` yields `None`). -/
structure Doc where
  database_IDs : Option PyVal
  database_Ids : Option PyVal
  deriving DecidableEq

/-- `_extract_dbids` from `mp.py`: take `database_IDs` when it is a dict,
else `database_Ids` when it is a dict, else the empty mapping `{}`. -/
def extract_dbids (doc : Doc) : List (String × List String) :=
  match doc.database_IDs with
  | some (PyVal.dict m) => m
  | _ =>
      match doc.database_Ids with
      | some (PyVal.dict m) => m
      | _ => []

/-- Modelled from the spec's words for the Schema Normalizer: consult the
ordered field-variant table and return the first present value of the expected
mapping type; when none is present return the explicit absent marker (the
empty mapping). -/
def first_present_variant (variants : List (Option PyVal)) :
    List (String × List String) :=
  match variants.findSome? (fun v =>
      match v with
      | some (PyVal.dict m) => some m
      | _ => none) with
  | some m => m
  | none => []

/-- `extract_icsd_from_dbids` from `icsd_from_mpids.py`: on a dict input take
its `icsd` entry (or `[]`), keep the entries whose string form is non-blank;
on any non-dict input return `[]`. -/
def extract_icsd_from_dbids (d : Option PyVal) : List String :=
  match d with
  | some (PyVal.dict m) =>
      (((m.find? fun p => p.1 == "icsd").map Prod.snd).getD []).filter
        fun s => !(s.trim == "")
  | _ => []

/-- Claim C8: the Schema Normalizer returns the value of the first variant
present (and of the expected mapping type) in the ordered variant table
`["database_IDs", "database_Ids"]`, and an explicit empty absent-marker when no
variant is present, never an error: `_extract_dbids` coincides with the
spec-level first-present-variant lookup on every document, and
`extract_icsd_from_dbids` returns the empty list on absent or non-mapping
input. -/
theorem extract_dbids_first_present (doc : Doc) (d : Option PyVal)
    (hd : ∀ m, d ≠ some (PyVal.dict m)) :
    extract_dbids doc = first_present_variant [doc.database_IDs, doc.database_Ids] ∧
      extract_icsd_from_dbids d = [] := by
  constructor
  · rcases doc with ⟨dIDs, dIds⟩
    rcases dIDs with _ | v
    · rcases dIds with _ | w
      · rfl
      · cases w <;> rfl
    · cases v with
      | dict m => rfl
      | other =>
          rcases dIds with _ | w
          · rfl
          · cases w <;> rfl
  · cases d with
    | none => rfl
    | some v =>
        cases v with
        | dict m => exact absurd rfl (hd m)
        | other => rfl

theorem extract_dbids_first_present_witness :
    extract_dbids ⟨some (PyVal.dict [("icsd", ["1", "2"])]), none⟩ =
        first_present_variant [some (PyVal.dict [("icsd", ["1", "2"])]), none] ∧
      extract_icsd_from_dbids none = [] :=
  extract_dbids_first_present ⟨some (PyVal.dict [("icsd", ["1", "2"])]), none⟩ none
    (fun _ h => Option.noConfusion h)

/-! ### Identifier-list file (`mp.py` lines 227-234,
`icsd_from_mpids.py` lines 152-155)

Both scripts hand a set of harvested ICSD ids to the downstream CIF fetcher by
writing `"\n".join(sorted({...})) + ("\n" if ids else "")` to
`ids_to_download.txt`.  Python sorts strings lexicographically by code point;
`chars_le`/`str_le` model that order. -/

/-- Lexicographic code-point comparison of character lists, as Python's
string `<=` used by `sorted`. -/
def chars_le : List Char → List Char → Bool
  | [], _ => true
  | _ :: _, [] => false
  | a :: as, b :: bs =>
      if a.toNat = b.toNat then chars_le as bs
      else decide (a.toNat < b.toNat)

/-- Python's string `<=` (code-point lexicographic order). -/
def str_le (a b : String) : Bool :=
  chars_le a.toList b.toList

theorem chars_le_total : ∀ l1 l2, chars_le l1 l2 = true ∨ chars_le l2 l1 = true := by
  intro l1
  induction l1 with
  | nil => intro l2 ; left ; rfl
  | cons a as ih =>
      intro l2
      cases l2 with
      | nil => right ; rfl
      | cons b bs =>
          by_cases hab : a.toNat = b.toNat
          · rcases ih bs with h | h
            · left ; simp [chars_le, hab, h]
            · right
              rw [chars_le, if_pos hab.symm]
              exact h
          · by_cases hlt : a.toNat < b.toNat
            · left ; simp [chars_le, hab, hlt]
            · right
              have hba : ¬ b.toNat = a.toNat := fun h => hab h.symm
              rw [chars_le, if_neg hba]
              exact decide_eq_true (by omega)

theorem chars_le_trans :
    ∀ l1 l2 l3, chars_le l1 l2 = true → chars_le l2 l3 = true → chars_le l1 l3 = true := by
  intro l1
  induction l1 with
  | nil => intro l2 l3 _ _ ; rfl
  | cons a as ih =>
      intro l2 l3 h12 h23
      cases l2 with
      | nil => simp [chars_le] at h12
      | cons b bs =>
          cases l3 with
          | nil => simp [chars_le] at h23
          | cons c cs =>
              rw [chars_le] at h12 h23 ⊢
              by_cases hab : a.toNat = b.toNat
              · rw [if_pos hab] at h12
                by_cases hbc : b.toNat = c.toNat
                · rw [if_pos hbc] at h23
                  rw [if_pos (hab.trans hbc)]
                  exact ih bs cs h12 h23
                · rw [if_neg hbc] at h23
                  have hlt : b.toNat < c.toNat := of_decide_eq_true h23
                  have hac : ¬ a.toNat = c.toNat := by omega
                  rw [if_neg hac]
                  exact decide_eq_true (by omega)
              · rw [if_neg hab] at h12
                have hlt : a.toNat < b.toNat := of_decide_eq_true h12
                by_cases hbc : b.toNat = c.toNat
                · have hac : ¬ a.toNat = c.toNat := by omega
                  rw [if_neg hac]
                  exact decide_eq_true (by omega)
                · rw [if_neg hbc] at h23
                  have hlt2 : b.toNat < c.toNat := of_decide_eq_true h23
                  have hac : ¬ a.toNat = c.toNat := by omega
                  rw [if_neg hac]
                  exact decide_eq_true (by omega)

instance str_le_isTotal : IsTotal String fun a b => str_le a b = true :=
  ⟨fun a b => chars_le_total a.toList b.toList⟩

instance str_le_isTrans : IsTrans String fun a b => str_le a b = true :=
  ⟨fun a b c => chars_le_trans a.toList b.toList c.toList⟩

/-- Python's `sorted(set(ids))`: deduplicate, then sort in string order. -/
def sortedDedup (ids : List String) : List String :=
  List.insertionSort (fun a b => str_le a b = true) ids.dedup

/-- The content written to `ids_to_download.txt`:
`"\n".join(ids) + ("\n" if ids else "")` over the deduplicated sorted ids. -/
def write_ids_file (ids : List String) : String :=
  String.intercalate "\n" (sortedDedup ids) ++
    (if (sortedDedup ids).isEmpty then "" else "\n")

theorem sortedDedup_perm (ids : List String) :
    List.Perm (sortedDedup ids) ids.dedup :=
  List.perm_insertionSort _ _

/-- Claim C9: the identifier list handed to the downstream ICSD stage is the
deduplicated, sorted set of the harvested ids, written one per line
(newline-joined), and the file carries a trailing newline exactly when the
identifier set is non-empty. -/
theorem ids_file_format (ids : List String) (h : ids ≠ []) :
    (sortedDedup ids).Nodup ∧
      List.Sorted (fun a b => str_le a b = true) (sortedDedup ids) ∧
      (sortedDedup ids).toFinset = ids.toFinset ∧
      write_ids_file ids = String.intercalate "\n" (sortedDedup ids) ++ "\n" ∧
      write_ids_file [] = "" := by
  have hperm := sortedDedup_perm ids
  refine ⟨hperm.nodup_iff.mpr (List.nodup_dedup ids), ?_, ?_, ?_, rfl⟩
  · exact List.sorted_insertionSort _ _
  · refine Finset.ext fun x => ?_
    simp only [List.mem_toFinset]
    rw [hperm.mem_iff, List.mem_dedup]
  · have hd : ids.dedup ≠ [] := fun hnil => h ((List.dedup_eq_nil ids).mp hnil)
    have hne : sortedDedup ids ≠ [] := by
      intro hnil
      have hlen := hperm.length_eq
      rw [hnil, List.length_nil] at hlen
      exact hd (List.eq_nil_of_length_eq_zero hlen.symm)
    have hempty : (sortedDedup ids).isEmpty = false := by
      cases hcase : sortedDedup ids with
      | nil => exact absurd hcase hne
      | cons x xs => rfl
    rw [write_ids_file, hempty]
    rfl

theorem ids_file_format_witness :
    (sortedDedup ["7", "12", "7"]).Nodup ∧
      List.Sorted (fun a b => str_le a b = true) (sortedDedup ["7", "12", "7"]) ∧
      (sortedDedup ["7", "12", "7"]).toFinset = (["7", "12", "7"] : List String).toFinset ∧
      write_ids_file ["7", "12", "7"] =
          String.intercalate "\n" (sortedDedup ["7", "12", "7"]) ++ "\n" ∧
      write_ids_file [] = "" :=
  ids_file_format ["7", "12", "7"] (by decide)

/-- `looks_like_icsd(s)` from `icsd_from_mpids.py`:
`s.replace(".", "").isdigit()` — delete every `.` and test the remainder for
being non-empty and all digits. -/
def looks_like_icsd (s : String) : Bool :=
  !(s.toList.filter fun c => !(c == '.')).isEmpty &&
    (s.toList.filter fun c => !(c == '.')).all Char.isDigit

/-- Python's `str.strip()`: drop leading and trailing whitespace. -/
def py_strip (s : String) : String :=
  String.mk (((s.toList.dropWhile Char.isWhitespace).reverse.dropWhile
    Char.isWhitespace).reverse)

/-- The identifier list written by `icsd_from_mpids.py` line 153:
`sorted({s for s in (x.strip() for x in icsd) if s and looks_like_icsd(s)})`. -/
def icsd_id_list (icsd : List String) : List String :=
  sortedDedup ((icsd.map py_strip).filter fun s => !(s == "") && looks_like_icsd s)

/-- Claim C10: every identifier written to `ids_to_download.txt` by
`icsd_from_mpids.py` passes the numeric-likeness test (dots removed, the
remainder is non-empty and all digits); a dotted string such as "12.34" passes
the test and is written, while empty, whitespace-only, and alphabetic strings
fail the pipeline's tests and are excluded. -/
theorem icsd_id_list_valid (l : List String) (s : String)
    (hs : s ∈ icsd_id_list l) (h12 : "12.34" ∈ l) :
    (looks_like_icsd s = true ∧ s ≠ "") ∧
      "12.34" ∈ icsd_id_list l ∧
      looks_like_icsd "12.34" = true ∧
      looks_like_icsd "" = false ∧
      looks_like_icsd "   " = false ∧
      looks_like_icsd "abc" = false := by
  constructor
  · have hmem : s ∈ (l.map py_strip).filter fun s => !(s == "") && looks_like_icsd s := by
      rw [icsd_id_list] at hs
      exact List.mem_dedup.mp ((sortedDedup_perm _).mem_iff.mp hs)
    have hpred := (List.mem_filter.mp hmem).2
    rw [Bool.and_eq_true] at hpred
    refine ⟨hpred.2, ?_⟩
    intro hnil
    rw [hnil] at hpred
    simp at hpred
  · refine ⟨?_, by decide, by decide, by decide, by decide⟩
    rw [icsd_id_list]
    refine (sortedDedup_perm _).mem_iff.mpr (List.mem_dedup.mpr ?_)
    exact List.mem_filter.mpr ⟨List.mem_map.mpr ⟨"12.34", h12, by decide⟩, by decide⟩

theorem icsd_id_list_valid_witness :
    (looks_like_icsd "12.34" = true ∧ ("12.34" : String) ≠ "") ∧
      "12.34" ∈ icsd_id_list ["12.34", "abc", "   "] ∧
      looks_like_icsd "12.34" = true ∧
      looks_like_icsd "" = false ∧
      looks_like_icsd "   " = false ∧
      looks_like_icsd "abc" = false :=
  icsd_id_list_valid ["12.34", "abc", "   "] "12.34" (by decide) (by decide)
